import Mathlib

/-!
Shallow embedding of the tic-tac-toe core of
`src/tic_tac_toe_frontend/src/App.js`.

JavaScript conventions captured by the model:
* a board cell holds `null` (empty), `"X"` or `"O"`; reading an index
  beyond the array yields `undefined`.  `null`, `undefined` and array
  holes are all falsy and all compare unequal to `"X"`/`"O"`, so the
  model conflates them into `Option.none`, while `some Mark.X` /
  `some Mark.O` are the truthy mark values;
* `copy[idx] = v` on an array copy writes in place when `idx` is in
  range and extends the array when `idx` equals the length (the only
  out-of-range index the theorems below ever exercise);
* `Math.random()` is an external real draw in `[0, 1)`; it is modelled
  as an explicit rational parameter `q` with `0 ≤ q < 1`, so that the
  dependence of a result on the draw is visible in the statements.

React component state (`game`, `scores`, `mode`, `started`) becomes the
`Session` structure, and each handler becomes a pure function
`Session → … → Session`; the 120 ms delay of the score update and the
375 ms computer-move delay are presentation timing and the model takes
the state each handler eventually installs.
-/

namespace TicTacToe

/-- A placed symbol, `"X"` or `"O"` in the source. -/
inductive Mark
  | X
  | O
deriving DecidableEq

/-- A board cell: `none` is JavaScript `null`/`undefined` (falsy),
`some m` is a placed mark (truthy). -/
abbrev Cell := Option Mark

/-- `board`: a JavaScript array of cells (length 9 in every reachable state,
but the type does not force it, just as the source does not). -/
abbrev Board := List Cell

/-- The two entries of `MODES`: `"2 Players"` and `"Play vs Computer"`. -/
inductive Mode
  | PVP
  | PVC
deriving DecidableEq

/-- The `game` piece of component state:
`{ board, xIsNext, winner, tie }`. -/
structure Game where
  board : Board
  xIsNext : Bool
  winner : Option Mark
  tie : Bool
deriving DecidableEq

/-- `initialState`: `{ board: Array(9).fill(null), xIsNext: true,
winner: null, tie: false }`. -/
def initialState : Game :=
  { board := List.replicate 9 none
    xIsNext := true
    winner := none
    tie := false }

/-- The `scores` piece of component state: `{ X: 0, O: 0, Tie: 0 }` shape. -/
structure Scores where
  X : Nat
  O : Nat
  Tie : Nat
deriving DecidableEq

/-- The whole component state the core handlers read and write:
`mode`, `game`, `scores`, `started` (the theme toggle is presentation
only and carries no game state). -/
structure Session where
  mode : Mode
  game : Game
  scores : Scores
  started : Bool
deriving DecidableEq

/-- `board[i]` in JavaScript: the stored cell when `i` is in range,
`undefined` (modelled as `none`) otherwise. -/
def cellAt (b : Board) (i : Nat) : Cell :=
  (b.get? i).join

/-- `copy = board.slice(); copy[idx] = v` (also `[...board]` followed by
`board[idx] = v`): writes in place in range, extends the array past the
end.  The theorems only use `i ≤ b.length`, where the padding is empty
and the model is exact. -/
def setCell (b : Board) (i : Nat) (v : Cell) : Board :=
  if i < b.length then b.set i v
  else b ++ List.replicate (i - b.length) none ++ [v]

/-- The literal `lines` list of `getWinner`, in source order:
3 rows, 3 columns, 2 diagonals. -/
def lines : List (Nat × Nat × Nat) :=
  [(0, 1, 2), (3, 4, 5), (6, 7, 8),
   (0, 3, 6), (1, 4, 7), (2, 5, 8),
   (0, 4, 8), (2, 4, 6)]

/-- The loop condition of `getWinner`:
`board[a] && board[a] === board[b] && board[a] === board[c]` — the first
cell is truthy and all three cells are equal. -/
def linePred (b : Board) (l : Nat × Nat × Nat) : Bool :=
  (cellAt b l.1).isSome &&
  cellAt b l.1 == cellAt b l.2.1 &&
  cellAt b l.1 == cellAt b l.2.2

/-- `getWinner(board)`: scan `lines` in order; on the first line
satisfying `linePred`, return its first cell's mark; otherwise `null`. -/
def getWinner (b : Board) : Option Mark :=
  (lines.find? (linePred b)).bind fun l => cellAt b l.1

/-- `getAvailableMoves(board)`:
`board.map((cell, idx) => cell ? null : idx).filter(v => v !== null)` —
the indices of the falsy cells, in ascending order. -/
def getAvailableMoves (b : Board) : List Nat :=
  (List.range b.length).filter fun i => (cellAt b i).isNone

/-- `getRandomMove(board)` with the `Math.random()` draw `q` made an
explicit parameter: `null` when no moves remain, otherwise
`moves[Math.floor(q * moves.length)]`. -/
def getRandomMove (b : Board) (q : ℚ) : Option Nat :=
  if (getAvailableMoves b).length = 0 then none
  else (getAvailableMoves b).get? (Int.toNat ⌊q * (getAvailableMoves b).length⌋)

/-- `bestAIMove(board)`: first legal move whose hypothetical `"O"`
placement makes `"O"` the winner; else first legal move whose
hypothetical `"X"` placement makes `"X"` the winner; else
`getRandomMove`.  The random draw `q` is an explicit parameter. -/
def bestAIMove (b : Board) (q : ℚ) : Option Nat :=
  match (getAvailableMoves b).find? fun idx => getWinner (setCell b idx (some Mark.O)) == some Mark.O with
  | some idx => some idx
  | none =>
    match (getAvailableMoves b).find? fun idx => getWinner (setCell b idx (some Mark.X)) == some Mark.X with
    | some idx => some idx
    | none => getRandomMove b q

/-- `nextTurn(board)`: `"X"` when the count of truthy cells is even,
`"O"` otherwise. -/
def nextTurn (b : Board) : Mark :=
  if (b.filter fun c => c.isSome).length % 2 = 0 then Mark.X else Mark.O

/-- The guard of `handleMove`:
`game.board[idx] || game.winner || game.tie`. -/
def moveRejected (s : Session) (idx : Nat) : Bool :=
  (cellAt s.game.board idx).isSome || s.game.winner.isSome || s.game.tie

/-- The inline tie computation of `handleMove`:
`!winner && board.every(cell => cell)`. -/
def computeTie (b : Board) : Bool :=
  (getWinner b).isNone && b.all fun c => c.isSome

/-- `handleMove(idx)`: early return on the guard; otherwise place the
active mark, recompute `winner` and `tie`, install the new game with the
turn flag negated, and (when the new game is terminal) increment the one
score field selected by `winner ? winner : "Tie"`. -/
def handleMove (s : Session) (idx : Nat) : Session :=
  if moveRejected s idx then s
  else
    let board := setCell s.game.board idx (some (if s.game.xIsNext then Mark.X else Mark.O))
    let winner := getWinner board
    let tie := computeTie board
    let scores :=
      if winner.isSome || tie then
        match winner with
        | some Mark.X => { s.scores with X := s.scores.X + 1 }
        | some Mark.O => { s.scores with O := s.scores.O + 1 }
        | none => { s.scores with Tie := s.scores.Tie + 1 }
      else s.scores
    { s with
      game := { board := board, xIsNext := !s.game.xIsNext, winner := winner, tie := tie }
      scores := scores }

/-- `chooseMode(newMode)`: `setMode(newMode); setStarted(false);
setGame(initialState())` — unconditional. -/
def chooseMode (s : Session) (newMode : Mode) : Session :=
  { s with mode := newMode, started := false, game := initialState }

/-- `startNewGame()`: `setGame(initialState()); setStarted(true)`. -/
def startNewGame (s : Session) : Session :=
  { s with game := initialState, started := true }

/-- `resetAll()`: fresh game, zero scores, not started, mode `PVP`. -/
def resetAll (_ : Session) : Session :=
  { mode := Mode.PVP
    game := initialState
    scores := { X := 0, O := 0, Tie := 0 }
    started := false }

/-- A sequence of `handleMove` calls applied in order. -/
def run (s : Session) (ms : List Nat) : Session :=
  ms.foldl handleMove s

/-- Count of truthy cells, `board.filter(x => x).length`. -/
def countFilled (b : Board) : Nat :=
  (b.filter fun c => c.isSome).length

/-- Placing `m` at `i` makes `m` the winner of the resulting board:
the hypothetical test of the two scan loops of `bestAIMove`. -/
def winsAt (b : Board) (m : Mark) (i : Nat) : Prop :=
  getWinner (setCell b i (some m)) = some m

/-- Line `l` is fully owned by mark `m` on board `b`. -/
def lineOwnedBy (b : Board) (l : Nat × Nat × Nat) (m : Mark) : Prop :=
  cellAt b l.1 = some m ∧ cellAt b l.2.1 = some m ∧ cellAt b l.2.2 = some m

/-- The parity invariant carried through move sequences: a 9-cell board
whose turn flag agrees with the parity of the occupied-cell count. -/
def gameInv (g : Game) : Prop :=
  g.board.length = 9 ∧ (g.xIsNext = true ↔ countFilled g.board % 2 = 0)

/-- The specified behaviour of `bestAIMove` on the board `b` with random
draw `q`, stated over the model's own definitions: (1) if some legal
move wins for `O` at once, the least such index is returned; (2) else if
some legal move would let `X` win at once, the least such index is
returned; (3) else the returned move is `moves[⌊q·n⌋]` where `n` is the
number of legal moves — the k-th legal move is chosen exactly when `q`
lies in `[k/n, (k+1)/n)`, an interval of length `1/n` for every `k`, so
a uniform draw picks every legal move with equal probability; (4) the
result is `none` exactly when no legal move exists. -/
def bestAIMoveSpec (b : Board) (q : ℚ) : Prop :=
  ((∃ i ∈ getAvailableMoves b, winsAt b Mark.O i) →
    ∃ i, bestAIMove b q = some i ∧ i ∈ getAvailableMoves b ∧ winsAt b Mark.O i ∧
      ∀ j ∈ getAvailableMoves b, j < i → ¬ winsAt b Mark.O j) ∧
  ((∀ i ∈ getAvailableMoves b, ¬ winsAt b Mark.O i) →
    (∃ i ∈ getAvailableMoves b, winsAt b Mark.X i) →
    ∃ i, bestAIMove b q = some i ∧ i ∈ getAvailableMoves b ∧ winsAt b Mark.X i ∧
      ∀ j ∈ getAvailableMoves b, j < i → ¬ winsAt b Mark.X j) ∧
  ((∀ i ∈ getAvailableMoves b, ¬ winsAt b Mark.O i ∧ ¬ winsAt b Mark.X i) →
    getAvailableMoves b ≠ [] →
    (∃ k, ∃ hk : k < (getAvailableMoves b).length,
      bestAIMove b q = some ((getAvailableMoves b).get ⟨k, hk⟩)) ∧
    (∀ k, ∀ hk : k < (getAvailableMoves b).length,
      (bestAIMove b q = some ((getAvailableMoves b).get ⟨k, hk⟩) ↔
        (k : ℚ) / (getAvailableMoves b).length ≤ q ∧
          q < (k + 1) / (getAvailableMoves b).length))) ∧
  (bestAIMove b q = none ↔ getAvailableMoves b = [])

/-! ### Concrete states used by witnesses and counterexamples -/

/-- A session that has just been started: fresh game, zero scores. -/
def freshSession : Session :=
  { mode := Mode.PVP
    game := initialState
    scores := { X := 0, O := 0, Tie := 0 }
    started := true }

/-- A mid-round session: `X` at 0 and 4, `O` at 1, `X` to move. -/
def demoSession : Session :=
  { mode := Mode.PVP
    game :=
      { board := [some Mark.X, some Mark.O, none, none, some Mark.X, none, none, none, none]
        xIsNext := true
        winner := none
        tie := false }
    scores := { X := 0, O := 0, Tie := 0 }
    started := true }

/-- A finished session: `X` owns the top row, outcome `Won X`. -/
def wonSession : Session :=
  { mode := Mode.PVP
    game :=
      { board := [some Mark.X, some Mark.X, some Mark.X,
                  some Mark.O, some Mark.O, none, none, none, none]
        xIsNext := false
        winner := some Mark.X
        tie := false }
    scores := { X := 1, O := 0, Tie := 0 }
    started := true }

/-- A session one `X` move away from winning: `X` at 0 and 1, `O` at 3
and 4, `X` to move; playing 2 completes the top row. -/
def nearWinSession : Session :=
  { mode := Mode.PVP
    game :=
      { board := [some Mark.X, some Mark.X, none,
                  some Mark.O, some Mark.O, none, none, none, none]
        xIsNext := true
        winner := none
        tie := false }
    scores := { X := 0, O := 0, Tie := 0 }
    started := true }

/-- A board on which `O` wins at once by playing 2 (`O` at 0 and 1). -/
def oWinBoard : Board :=
  [some Mark.O, some Mark.O, none, some Mark.X, some Mark.X, none, none, none, some Mark.X]

/-! ### Helper lemmas -/

theorem handleMove_of_rejected {s : Session} {idx : Nat}
    (h : moveRejected s idx = true) : handleMove s idx = s := by
  simp [handleMove, h]

theorem moveRejected_of_terminal {s : Session} (idx : Nat)
    (h : s.game.winner.isSome = true ∨ s.game.tie = true) :
    moveRejected s idx = true := by
  rcases h with h | h <;> simp [moveRejected, h]

/-- `getAvailableMoves` is strictly increasing (the source builds it by
filtering the ascending index list). -/
theorem availableMoves_pairwise (b : Board) :
    (getAvailableMoves b).Pairwise (· < ·) :=
  List.Pairwise.sublist (List.filter_sublist _) (List.pairwise_lt_range _)

theorem mem_availableMoves {b : Board} {i : Nat} :
    i ∈ getAvailableMoves b ↔ i < b.length ∧ (cellAt b i).isNone := by
  simp [getAvailableMoves, List.mem_filter, List.mem_range]

/-- The first hit of `find?` on a strictly increasing list of naturals is
the least element satisfying the predicate. -/
theorem find?_first_min {p : Nat → Bool} {ls : List Nat} {i : Nat}
    (hp : ls.Pairwise (· < ·)) (h : ls.find? p = some i) :
    p i = true ∧ i ∈ ls ∧ ∀ j ∈ ls, j < i → p j = false := by
  obtain ⟨hpi, as, bs, rfl, hall⟩ := List.find?_eq_some.mp h
  refine ⟨hpi, by simp, ?_⟩
  intro j hj hji
  rcases List.mem_append.mp hj with hja | hjb
  · simpa using hall j hja
  · rcases List.mem_cons.mp hjb with rfl | hjb
    · omega
    · have h1 := (List.pairwise_append.mp hp).2.1
      have h2 := (List.pairwise_cons.mp h1).1 j hjb
      omega

/-! ### C1 -/

/-- C1 (amended): `handleMove` is rejected with the whole session
unchanged whenever the round is already terminal (`winner` set or `tie`)
or the cell at the index is already occupied.  (The out-of-range clause
of the original claim fails: see the counterexample below.) -/
theorem handleMove_rejects_terminal_or_occupied (s : Session) (idx : Nat)
    (h : (cellAt s.game.board idx).isSome = true ∨
         s.game.winner.isSome = true ∨ s.game.tie = true) :
    handleMove s idx = s := by
  apply handleMove_of_rejected
  rcases h with h | h | h <;> simp [moveRejected, h]

/-- C1 witness: the occupied cell 0 of `demoSession` is rejected. -/
theorem handleMove_rejects_witness :
    (cellAt demoSession.game.board 0).isSome = true ∧
    handleMove demoSession 0 = demoSession :=
  ⟨by decide, handleMove_rejects_terminal_or_occupied demoSession 0 (Or.inl (by decide))⟩

/-- C1 counterexample: index 9 is out of the 0–8 range, yet the move is
not rejected — `game.board[9]` is `undefined`, hence falsy, so the guard
passes and the state changes (the turn flag flips and the board grows). -/
theorem handleMove_oob_not_rejected :
    handleMove freshSession 9 ≠ freshSession := by
  decide

/-! ### C2 -/

/-- C2 (amended): `chooseMode` is never a no-op guard: it
unconditionally installs the requested mode, resets the game to the
initial state and clears `started`, whether or not a round is active;
only the scores survive. -/
theorem chooseMode_unconditional (s : Session) (m : Mode) :
    chooseMode s m =
      { mode := m, game := initialState, scores := s.scores, started := false } :=
  rfl

/-- C2 counterexample: with `started = true` the original claim demands
an unchanged session, but `chooseMode` changes it. -/
theorem chooseMode_not_noop_while_started :
    freshSession.started = true ∧
    chooseMode freshSession Mode.PVC ≠ freshSession := by
  constructor
  · rfl
  · decide

/-! ### C6 -/

/-- C6: once the stored outcome is `Won` (`winner` set) or `Tied`
(`tie` true), every further `handleMove`, at every index, returns the
session unchanged, and so does every further sequence of calls: terminal
states are locked forever. -/
theorem terminal_locks_forever (s : Session)
    (h : s.game.winner.isSome = true ∨ s.game.tie = true) :
    (∀ idx : Nat, handleMove s idx = s) ∧ (∀ ms : List Nat, run s ms = s) := by
  have hstep : ∀ idx : Nat, handleMove s idx = s := fun idx =>
    handleMove_of_rejected (moveRejected_of_terminal idx h)
  refine ⟨hstep, ?_⟩
  intro ms
  induction ms with
  | nil => rfl
  | cons a t ih => simpa [run, hstep a] using ih

/-- C6 witness: the won session rejects a move at the empty cell 5 and a
whole burst of further calls. -/
theorem terminal_locks_witness :
    wonSession.game.winner.isSome = true ∧
    handleMove wonSession 5 = wonSession ∧
    run wonSession [5, 6, 7, 8] = wonSession := by
  refine ⟨by decide, ?_, ?_⟩
  · exact (terminal_locks_forever wonSession (Or.inl (by decide))).1 5
  · exact (terminal_locks_forever wonSession (Or.inl (by decide))).2 [5, 6, 7, 8]

/-! ### C10 -/

/-- C10: `startNewGame` changes only the game and the `started` flag —
it installs the fresh initial round (9 empty cells, `X` to move, no
winner, no tie) and sets `started`, leaving scores and mode intact. -/
theorem startNewGame_frame (s : Session) :
    startNewGame s =
      { mode := s.mode, game := initialState, scores := s.scores, started := true } ∧
    initialState.board = List.replicate 9 none ∧
    initialState.xIsNext = true ∧
    initialState.winner = none ∧
    initialState.tie = false :=
  ⟨rfl, rfl, rfl, rfl, rfl⟩

/-! ### C5 -/

/-- C5: score bookkeeping of `handleMove`.  A rejected move never
touches the scores.  An accepted move (necessarily from an
`InProgress` game, by the guard) increments exactly the one field named
by the fresh outcome — `X`'s count when the new winner is `X`, `O`'s
when it is `O`, the tie count on a fresh tie — by exactly one, leaving
the other two fields intact; an accepted move that leaves the game in
progress changes no score field. -/
theorem handleMove_score_update (s : Session) (idx : Nat) :
    (moveRejected s idx = true → (handleMove s idx).scores = s.scores) ∧
    (moveRejected s idx = false →
      ((handleMove s idx).game.winner = some Mark.X →
          (handleMove s idx).scores =
            { X := s.scores.X + 1, O := s.scores.O, Tie := s.scores.Tie }) ∧
      ((handleMove s idx).game.winner = some Mark.O →
          (handleMove s idx).scores =
            { X := s.scores.X, O := s.scores.O + 1, Tie := s.scores.Tie }) ∧
      ((handleMove s idx).game.winner = none → (handleMove s idx).game.tie = true →
          (handleMove s idx).scores =
            { X := s.scores.X, O := s.scores.O, Tie := s.scores.Tie + 1 }) ∧
      ((handleMove s idx).game.winner = none → (handleMove s idx).game.tie = false →
          (handleMove s idx).scores = s.scores)) := by
  constructor
  · intro h
    rw [handleMove_of_rejected h]
  · intro h
    simp only [handleMove, h, Bool.false_eq_true, if_false]
    rcases hw : getWinner (setCell s.game.board idx
        (some (if s.game.xIsNext then Mark.X else Mark.O))) with _ | m
    · rcases ht : computeTie (setCell s.game.board idx
          (some (if s.game.xIsNext then Mark.X else Mark.O))) with _ | _ <;>
        simp [hw, ht]
    · cases m <;> simp [hw]

/-- C5 witness: the winning move 2 of `nearWinSession` bumps exactly
`X`'s count. -/
theorem handleMove_score_update_witness :
    moveRejected nearWinSession 2 = false ∧
    (handleMove nearWinSession 2).game.winner = some Mark.X ∧
    (handleMove nearWinSession 2).scores = { X := 1, O := 0, Tie := 0 } := by
  refine ⟨by decide, by decide, ?_⟩
  exact ((handleMove_score_update nearWinSession 2).2 (by decide)).1 (by decide)

/-! ### C7 -/

theorem cellAt_eq_get {b : Board} {i : Nat} (hi : i < b.length) :
    cellAt b i = b.get ⟨i, hi⟩ := by
  simp [cellAt, Option.join, List.get?_eq_getElem?, List.getElem?_eq_getElem hi]

/-- C7: the inline tie computation of `handleMove` holds exactly when
`getWinner` finds nobody and all 9 cells are occupied; in particular a
board with a winner is never scored a tie, so a move that fills the
board while completing a line produces outcome `Won`, never `Tied`. -/
theorem computeTie_spec (b : Board) (hb : b.length = 9) :
    (computeTie b = true ↔
      (getWinner b = none ∧ ∀ i, i < 9 → (cellAt b i).isSome = true)) ∧
    (∀ m : Mark, getWinner b = some m → computeTie b = false) ∧
    (∀ (s : Session) (idx : Nat), moveRejected s idx = false →
      ((handleMove s idx).game.winner).isSome = true →
      (handleMove s idx).game.tie = false) := by
  refine ⟨?_, ?_, ?_⟩
  · rw [computeTie, Bool.and_eq_true, Option.isNone_iff_eq_none, List.all_eq_true]
    constructor
    · rintro ⟨hw, hall⟩
      refine ⟨hw, ?_⟩
      intro i hi
      have hi' : i < b.length := by omega
      rw [cellAt_eq_get hi']
      exact hall _ (b.get_mem _ _)
    · rintro ⟨hw, hall⟩
      refine ⟨hw, ?_⟩
      intro x hx
      obtain ⟨⟨i, hi⟩, rfl⟩ := List.mem_iff_get.mp hx
      have := hall i (by omega)
      rwa [cellAt_eq_get hi] at this
  · intro m hm
    simp [computeTie, hm]
  · intro s idx h hw
    simp only [handleMove, h, Bool.false_eq_true, if_false] at hw ⊢
    rcases hg : getWinner (setCell s.game.board idx
        (some (if s.game.xIsNext then Mark.X else Mark.O))) with _ | m
    · simp [hg] at hw
    · simp [computeTie, hg]

/-- C7 witness: `wonSession`'s board has a winner, hence no tie; and on
`nearWinSession` the winning move yields `tie = false`. -/
theorem computeTie_spec_witness :
    wonSession.game.board.length = 9 ∧
    computeTie wonSession.game.board = false ∧
    (handleMove nearWinSession 2).game.tie = false := by
  refine ⟨by decide, ?_, ?_⟩
  · exact (computeTie_spec wonSession.game.board (by decide)).2.1 Mark.X (by decide)
  · exact (computeTie_spec wonSession.game.board (by decide)).2.2 nearWinSession 2
      (by decide) (by decide)

/-! ### C8 -/

theorem countFilled_set {b : Board} {idx : Nat} (hlen : idx < b.length)
    (hc : cellAt b idx = none) (m : Mark) :
    countFilled (b.set idx (some m)) = countFilled b + 1 := by
  induction b generalizing idx with
  | nil => simp at hlen
  | cons c t ih =>
    cases idx with
    | zero =>
      have hcnil : c = none := by simpa [cellAt] using hc
      subst hcnil
      simp [countFilled, List.filter_cons]
    | succ n =>
      have hc' : cellAt t n = none := by simpa [cellAt] using hc
      have hlen' : n < t.length := by simpa using hlen
      have hrec := ih hlen' hc'
      cases c <;> simp_all [countFilled, List.filter_cons]

theorem handleMove_preserves_inv {s : Session} {idx : Nat} (hidx : idx < 9)
    (h : gameInv s.game) : gameInv (handleMove s idx).game := by
  by_cases hr : moveRejected s idx
  · rw [handleMove_of_rejected hr]; exact h
  · have hr' : moveRejected s idx = false := by simpa using hr
    have hcell : cellAt s.game.board idx = none := by
      rcases hcc : cellAt s.game.board idx with _ | m
      · rfl
      · exfalso
        rw [moveRejected, hcc] at hr'
        simp at hr'
    have hlen : idx < s.game.board.length := by
      rw [h.1]
      exact hidx
    simp only [handleMove, hr', Bool.false_eq_true, if_false]
    constructor
    · simpa [setCell, hlen] using h.1
    · have hcount : countFilled (setCell s.game.board idx
          (some (if s.game.xIsNext then Mark.X else Mark.O))) =
          countFilled s.game.board + 1 := by
        rw [setCell, if_pos hlen]
        exact countFilled_set hlen hcell _
      rw [hcount]
      rcases h with ⟨-, hpar⟩
      rcases hx : s.game.xIsNext with _ | _ <;>
        simp [hx] at hpar ⊢ <;> omega

theorem nextTurn_eq_X_iff (b : Board) :
    nextTurn b = Mark.X ↔ countFilled b % 2 = 0 := by
  rw [nextTurn]
  by_cases h : (b.filter fun c => c.isSome).length % 2 = 0 <;>
    simp [h, countFilled]

/-- C8: after any sequence of moves (each in 0–8) from a session holding
the fresh initial game, the turn flag equals the parity of the
occupied-cell count — `X` (MarkA) to move exactly when the count is even
— and agrees with the derived `nextTurn`; in particular the first mover
is `X` and accepted moves alternate strictly. -/
theorem turn_parity_invariant (ms : List Nat) (hms : ∀ i ∈ ms, i < 9)
    (s0 : Session) (h0 : s0.game = initialState) :
    ((run s0 ms).game.xIsNext = true ↔
      countFilled (run s0 ms).game.board % 2 = 0) ∧
    ((run s0 ms).game.xIsNext = true ↔
      nextTurn (run s0 ms).game.board = Mark.X) := by
  have hinv : gameInv (run s0 ms).game := by
    have base : gameInv s0.game := by
      rw [h0]
      exact ⟨rfl, by simp [initialState, countFilled]⟩
    clear h0
    induction ms generalizing s0 with
    | nil => exact base
    | cons a t ih =>
      have ha : a < 9 := hms a (by simp)
      have hstep := handleMove_preserves_inv ha base
      exact ih (fun i hi => hms i (by simp [hi])) (handleMove s0 a) hstep
  refine ⟨hinv.2, ?_⟩
  rw [nextTurn_eq_X_iff]
  exact hinv.2

/-- C8 witness: after the accepted sequence X0, O4, X1 the count is odd
and it is `O`'s turn. -/
theorem turn_parity_invariant_witness :
    (∀ i ∈ [0, 4, 1], i < 9) ∧
    freshSession.game = initialState ∧
    ((run freshSession [0, 4, 1]).game.xIsNext = true ↔
      countFilled (run freshSession [0, 4, 1]).game.board % 2 = 0) := by
  refine ⟨by decide, rfl, ?_⟩
  exact (turn_parity_invariant [0, 4, 1] (by decide) freshSession rfl).1

/-! ### C4 -/

theorem linePred_iff (b : Board) (l : Nat × Nat × Nat) :
    linePred b l = true ↔ ∃ m, lineOwnedBy b l m := by
  rw [linePred]
  constructor
  · intro h
    simp only [Bool.and_eq_true, beq_iff_eq] at h
    obtain ⟨⟨h1, h2⟩, h3⟩ := h
    obtain ⟨m, hm⟩ := Option.isSome_iff_exists.mp h1
    refine ⟨m, hm, ?_, ?_⟩
    · rw [← h2]; exact hm
    · rw [← h3]; exact hm
  · rintro ⟨m, h1, h2, h3⟩
    simp [h1, h2, h3]

/-- C4: `getWinner` returns `some m` exactly when some line of the fixed
list `lines` is fully owned by `m` and every line listed before it is
owned by nobody (the first fully-owned line in iteration order), and
returns `none` exactly when no line is fully owned by one mark. -/
theorem getWinner_first_line_spec (b : Board) :
    (∀ m : Mark, getWinner b = some m ↔
      ∃ l pre post, lines = pre ++ l :: post ∧ lineOwnedBy b l m ∧
        ∀ l2 ∈ pre, ∀ m2 : Mark, ¬ lineOwnedBy b l2 m2) ∧
    (getWinner b = none ↔ ∀ l ∈ lines, ∀ m : Mark, ¬ lineOwnedBy b l m) := by
  constructor
  · intro m
    constructor
    · intro h
      obtain ⟨l, hfind, hcell⟩ := Option.bind_eq_some.mp h
      obtain ⟨hpl, pre, post, hsplit, hpre⟩ := List.find?_eq_some.mp hfind
      obtain ⟨m2, hm2⟩ := (linePred_iff b l).mp hpl
      have hmm : m2 = m := by
        have := hm2.1
        rw [hcell] at this
        exact (Option.some_injective _ this).symm
      subst hmm
      refine ⟨l, pre, post, hsplit, hm2, ?_⟩
      intro l2 hl2 m3 howned
      have hh := hpre l2 hl2
      rw [(linePred_iff b l2).mpr ⟨m3, howned⟩] at hh
      simp at hh
    · rintro ⟨l, pre, post, hsplit, howned, hpre⟩
      have hfind : lines.find? (linePred b) = some l := by
        rw [List.find?_eq_some]
        refine ⟨(linePred_iff b l).mpr ⟨m, howned⟩, pre, post, hsplit, ?_⟩
        intro a ha
        have : linePred b a = false := by
          rcases hpa : linePred b a with _ | _
          · rfl
          · exact absurd ((linePred_iff b a).mp hpa)
              (by rintro ⟨m2, hm2⟩; exact hpre a ha m2 hm2)
        simp [this]
      rw [getWinner, hfind]
      exact howned.1
  · constructor
    · intro h l hl m howned
      have hfind : (lines.find? (linePred b)).isSome = true :=
        List.find?_isSome.mpr ⟨l, hl, (linePred_iff b l).mpr ⟨m, howned⟩⟩
      obtain ⟨l2, hl2⟩ := Option.isSome_iff_exists.mp hfind
      have hpl2 := List.find?_some hl2
      obtain ⟨m2, hm2⟩ := (linePred_iff b l2).mp hpl2
      rw [getWinner, hl2, Option.some_bind, hm2.1] at h
      exact Option.some_ne_none m2 h
    · intro h
      have hfind : lines.find? (linePred b) = none := by
        rw [List.find?_eq_none]
        intro l hl
        rcases hpa : linePred b l with _ | _
        · simp [hpa]
        · exact absurd ((linePred_iff b l).mp hpa)
            (by rintro ⟨m2, hm2⟩; exact h l hl m2 hm2)
      rw [getWinner, hfind]
      rfl

/-! ### C3 -/

theorem find?_winsAt_none {b : Board} {m : Mark}
    (h : ∀ i ∈ getAvailableMoves b, ¬ winsAt b m i) :
    (getAvailableMoves b).find?
      (fun idx => getWinner (setCell b idx (some m)) == some m) = none := by
  rw [List.find?_eq_none]
  intro x hx
  have hm := h x hx
  rw [winsAt] at hm
  simpa using hm

theorem find?_winsAt_some {b : Board} {m : Mark} {i : Nat}
    (h : (getAvailableMoves b).find?
      (fun idx => getWinner (setCell b idx (some m)) == some m) = some i) :
    i ∈ getAvailableMoves b ∧ winsAt b m i ∧
      ∀ j ∈ getAvailableMoves b, j < i → ¬ winsAt b m j := by
  have hmin := find?_first_min (availableMoves_pairwise b) h
  refine ⟨hmin.2.1, ?_, ?_⟩
  · have h1 := hmin.1
    rw [beq_iff_eq] at h1
    exact h1
  · intro j hj hji hcon
    have h2 := hmin.2.2 j hj hji
    rw [winsAt] at hcon
    simp [hcon] at h2

theorem getRandomMove_index {b : Board} {q : ℚ} (hq0 : 0 ≤ q) (hq1 : q < 1)
    (hne : getAvailableMoves b ≠ []) :
    ∃ hk : Int.toNat ⌊q * (getAvailableMoves b).length⌋ < (getAvailableMoves b).length,
      getRandomMove b q = some ((getAvailableMoves b).get
        ⟨Int.toNat ⌊q * (getAvailableMoves b).length⌋, hk⟩) := by
  have hlen : (getAvailableMoves b).length ≠ 0 := by
    simpa [List.length_eq_zero] using hne
  have hnpos : (0:ℚ) < ((getAvailableMoves b).length : ℚ) := by
    exact_mod_cast Nat.pos_of_ne_zero hlen
  have hge : (0:ℤ) ≤ ⌊q * ((getAvailableMoves b).length : ℚ)⌋ :=
    Int.floor_nonneg.mpr (mul_nonneg hq0 (le_of_lt hnpos))
  have hlt : ⌊q * ((getAvailableMoves b).length : ℚ)⌋ <
      (((getAvailableMoves b).length : ℕ) : ℤ) := by
    rw [Int.floor_lt]
    push_cast
    nlinarith
  have hk : Int.toNat ⌊q * ((getAvailableMoves b).length : ℚ)⌋ <
      (getAvailableMoves b).length := by
    omega
  refine ⟨hk, ?_⟩
  simp only [getRandomMove]
  rw [if_neg hlen, List.get?_eq_get hk]

/-- C3: the automated opponent follows the strict priority win-now,
block, uniformly-random fallback, and returns `none` exactly when no
legal move exists — see `bestAIMoveSpec` for the precise statement. -/
theorem bestAIMove_priority_spec (b : Board) (q : ℚ) (hq0 : 0 ≤ q) (hq1 : q < 1) :
    bestAIMoveSpec b q := by
  refine ⟨?_, ?_, ?_, ?_⟩
  · rintro ⟨i0, hi0, hw0⟩
    have hfs : ((getAvailableMoves b).find?
        (fun idx => getWinner (setCell b idx (some Mark.O)) == some Mark.O)).isSome = true := by
      refine List.find?_isSome.mpr ⟨i0, hi0, ?_⟩
      rw [winsAt] at hw0
      simp [hw0]
    obtain ⟨i, hfind⟩ := Option.isSome_iff_exists.mp hfs
    obtain ⟨hmem, hwin, hleast⟩ := find?_winsAt_some hfind
    refine ⟨i, ?_, hmem, hwin, hleast⟩
    simp only [bestAIMove]
    rw [hfind]
  · intro hno hex
    rcases hex with ⟨i0, hi0, hw0⟩
    have hfo := find?_winsAt_none hno
    have hfs : ((getAvailableMoves b).find?
        (fun idx => getWinner (setCell b idx (some Mark.X)) == some Mark.X)).isSome = true := by
      refine List.find?_isSome.mpr ⟨i0, hi0, ?_⟩
      rw [winsAt] at hw0
      simp [hw0]
    obtain ⟨i, hfind⟩ := Option.isSome_iff_exists.mp hfs
    obtain ⟨hmem, hwin, hleast⟩ := find?_winsAt_some hfind
    refine ⟨i, ?_, hmem, hwin, hleast⟩
    simp only [bestAIMove]
    rw [hfo, hfind]
  · intro hnone hne
    have hno : ∀ i ∈ getAvailableMoves b, ¬ winsAt b Mark.O i := fun i hi => (hnone i hi).1
    have hnx : ∀ i ∈ getAvailableMoves b, ¬ winsAt b Mark.X i := fun i hi => (hnone i hi).2
    have hfo := find?_winsAt_none hno
    have hfx := find?_winsAt_none hnx
    have hrand : bestAIMove b q = getRandomMove b q := by
      simp only [bestAIMove]
      rw [hfo, hfx]
    obtain ⟨hk0, hget⟩ := getRandomMove_index hq0 hq1 hne
    have hnd : (getAvailableMoves b).Nodup :=
      List.Pairwise.imp (fun h => Nat.ne_of_lt h) (availableMoves_pairwise b)
    have hlen : (getAvailableMoves b).length ≠ 0 := by
      simpa [List.length_eq_zero] using hne
    have hnpos : (0:ℚ) < ((getAvailableMoves b).length : ℚ) := by
      exact_mod_cast Nat.pos_of_ne_zero hlen
    have hge : (0:ℤ) ≤ ⌊q * ((getAvailableMoves b).length : ℚ)⌋ :=
      Int.floor_nonneg.mpr (mul_nonneg hq0 (le_of_lt hnpos))
    refine ⟨⟨_, hk0, by rw [hrand, hget]⟩, ?_⟩
    intro k hk
    constructor
    · intro hsome
      rw [hrand, hget] at hsome
      have hEq := Option.some_injective _ hsome
      have hkk : Int.toNat ⌊q * ((getAvailableMoves b).length : ℚ)⌋ = k := by
        have := congrArg Fin.val (hnd.get_inj_iff.mp hEq)
        simpa using this
      have hfloor : ⌊q * ((getAvailableMoves b).length : ℚ)⌋ = (k : ℤ) := by omega
      have hb2 := Int.floor_eq_iff.mp hfloor
      push_cast at hb2
      constructor
      · rw [div_le_iff₀ hnpos]
        exact hb2.1
      · rw [lt_div_iff₀ hnpos]
        exact hb2.2
    · rintro ⟨hlo, hhi⟩
      rw [div_le_iff₀ hnpos] at hlo
      rw [lt_div_iff₀ hnpos] at hhi
      have hfloor : ⌊q * ((getAvailableMoves b).length : ℚ)⌋ = (k : ℤ) := by
        rw [Int.floor_eq_iff]
        push_cast
        exact ⟨hlo, hhi⟩
      have hkk : Int.toNat ⌊q * ((getAvailableMoves b).length : ℚ)⌋ = k := by omega
      rw [hrand, hget]
      subst hkk
      rfl
  · constructor
    · intro h
      by_contra hne
      rcases hfo : (getAvailableMoves b).find?
          (fun idx => getWinner (setCell b idx (some Mark.O)) == some Mark.O) with _ | i
      · rcases hfx : (getAvailableMoves b).find?
            (fun idx => getWinner (setCell b idx (some Mark.X)) == some Mark.X) with _ | i
        · have hrand : bestAIMove b q = getRandomMove b q := by
            simp only [bestAIMove]
            rw [hfo, hfx]
          obtain ⟨hk0, hget⟩ := getRandomMove_index hq0 hq1 hne
          rw [hrand, hget] at h
          simp at h
        · have hbm : bestAIMove b q = some i := by
            simp only [bestAIMove]
            rw [hfo, hfx]
          rw [hbm] at h
          simp at h
      · have hbm : bestAIMove b q = some i := by
          simp only [bestAIMove]
          rw [hfo]
        rw [hbm] at h
        simp at h
    · intro h
      simp [bestAIMove, getRandomMove, h]

/-- C3 witness: the empty board with draw `q = 0` satisfies the whole
specification. -/
theorem bestAIMove_priority_spec_witness :
    (0:ℚ) ≤ 0 ∧ (0:ℚ) < 1 ∧ bestAIMoveSpec initialState.board 0 :=
  ⟨le_refl 0, by norm_num, bestAIMove_priority_spec initialState.board 0 (le_refl 0) (by norm_num)⟩

/-- C4 witness: on the won board the top row `(0,1,2)` is the first
fully-owned line, owned by `X`. -/
theorem getWinner_first_line_witness :
    ∃ l pre post, lines = pre ++ l :: post ∧
      lineOwnedBy wonSession.game.board l Mark.X ∧
      ∀ l2 ∈ pre, ∀ m2 : Mark, ¬ lineOwnedBy wonSession.game.board l2 m2 :=
  ((getWinner_first_line_spec wonSession.game.board).1 Mark.X).mp (by decide)

/-! ### C9 -/

/-- C9 (amended): every core operation other than the random fallback is
deterministic — it is a pure function of the session value — and
`bestAIMove` itself is independent of the random draw whenever a winning
or blocking move exists or at most one legal move remains.  (When the
random fallback is reached with two or more legal moves the result does
depend on the draw: see the counterexample.) -/
theorem bestAIMove_draw_independent (b : Board) (q₁ q₂ : ℚ)
    (h₁ : 0 ≤ q₁ ∧ q₁ < 1) (h₂ : 0 ≤ q₂ ∧ q₂ < 1)
    (h : (∃ i ∈ getAvailableMoves b, winsAt b Mark.O i ∨ winsAt b Mark.X i) ∨
         (getAvailableMoves b).length ≤ 1) :
    bestAIMove b q₁ = bestAIMove b q₂ := by
  rcases hfo : (getAvailableMoves b).find?
      (fun idx => getWinner (setCell b idx (some Mark.O)) == some Mark.O) with _ | i
  · rcases hfx : (getAvailableMoves b).find?
        (fun idx => getWinner (setCell b idx (some Mark.X)) == some Mark.X) with _ | i
    · have hr1 : bestAIMove b q₁ = getRandomMove b q₁ := by
        simp only [bestAIMove]
        rw [hfo, hfx]
      have hr2 : bestAIMove b q₂ = getRandomMove b q₂ := by
        simp only [bestAIMove]
        rw [hfo, hfx]
      have hlen : (getAvailableMoves b).length ≤ 1 := by
        rcases h with ⟨i, hi, hw | hw⟩ | hl
        · exfalso
          rw [List.find?_eq_none] at hfo
          have hcc := hfo i hi
          rw [winsAt] at hw
          simp [hw] at hcc
        · exfalso
          rw [List.find?_eq_none] at hfx
          have hcc := hfx i hi
          rw [winsAt] at hw
          simp [hw] at hcc
        · exact hl
      rw [hr1, hr2]
      rcases Nat.lt_or_ge (getAvailableMoves b).length 1 with h0 | hge1
      · have hmv : getAvailableMoves b = [] := List.length_eq_zero.mp (by omega)
        simp [getRandomMove, hmv]
      · have hne : getAvailableMoves b ≠ [] := by
          intro hc
          rw [hc] at hge1
          simp at hge1
        obtain ⟨hk1, hg1⟩ := getRandomMove_index h₁.1 h₁.2 hne
        obtain ⟨hk2, hg2⟩ := getRandomMove_index h₂.1 h₂.2 hne
        rw [hg1, hg2]
        have e12 : Int.toNat ⌊q₁ * ((getAvailableMoves b).length : ℚ)⌋ =
            Int.toNat ⌊q₂ * ((getAvailableMoves b).length : ℚ)⌋ := by omega
        exact congrArg (fun x => some ((getAvailableMoves b).get x)) (Fin.ext e12)
    · have hb1 : bestAIMove b q₁ = some i := by
        simp only [bestAIMove]
        rw [hfo, hfx]
      have hb2 : bestAIMove b q₂ = some i := by
        simp only [bestAIMove]
        rw [hfo, hfx]
      rw [hb1, hb2]
  · have hb1 : bestAIMove b q₁ = some i := by
      simp only [bestAIMove]
      rw [hfo]
    have hb2 : bestAIMove b q₂ = some i := by
      simp only [bestAIMove]
      rw [hfo]
    rw [hb1, hb2]

/-- C9 witness: on `oWinBoard` the winning move 2 exists, so the result
is the same for the draws `0` and `1/3`. -/
theorem bestAIMove_draw_independent_witness :
    ((0:ℚ) ≤ 0 ∧ (0:ℚ) < 1) ∧ ((0:ℚ) ≤ 1/3 ∧ (1/3:ℚ) < 1) ∧
    ((∃ i ∈ getAvailableMoves oWinBoard,
        winsAt oWinBoard Mark.O i ∨ winsAt oWinBoard Mark.X i) ∨
      (getAvailableMoves oWinBoard).length ≤ 1) ∧
    bestAIMove oWinBoard 0 = bestAIMove oWinBoard (1/3) := by
  have hh : (∃ i ∈ getAvailableMoves oWinBoard,
      winsAt oWinBoard Mark.O i ∨ winsAt oWinBoard Mark.X i) ∨
      (getAvailableMoves oWinBoard).length ≤ 1 :=
    Or.inl ⟨2, by decide,
      Or.inl (show getWinner (setCell oWinBoard 2 (some Mark.O)) = some Mark.O by decide)⟩
  exact ⟨⟨le_refl 0, by norm_num⟩, ⟨by norm_num, by norm_num⟩, hh,
    bestAIMove_draw_independent oWinBoard 0 (1/3) ⟨le_refl 0, by norm_num⟩
      ⟨by norm_num, by norm_num⟩ hh⟩

/-- C9 counterexample: on the empty board (no win, no block, nine legal
moves) the fallback result depends on the draw — `some 0` for `q = 0`
and `some 4` for `q = 1/2` — so equal board inputs do not guarantee
equal results once the hidden random input differs. -/
theorem bestAIMove_depends_on_draw :
    bestAIMove initialState.board 0 ≠ bestAIMove initialState.board (1/2) := by
  have hfo0 : (getAvailableMoves initialState.board).find?
      (fun idx => getWinner (setCell initialState.board idx (some Mark.O)) == some Mark.O) =
        none := by
    decide
  have hfx0 : (getAvailableMoves initialState.board).find?
      (fun idx => getWinner (setCell initialState.board idx (some Mark.X)) == some Mark.X) =
        none := by
    decide
  have hlen : (getAvailableMoves initialState.board).length = 9 := by decide
  have hr : ∀ q : ℚ, bestAIMove initialState.board q = getRandomMove initialState.board q := by
    intro q
    simp only [bestAIMove]
    rw [hfo0, hfx0]
  have hf0 : ⌊(0:ℚ) * ((getAvailableMoves initialState.board).length : ℚ)⌋ = 0 := by
    rw [hlen]
    norm_num
  have hf2 : ⌊(1/2:ℚ) * ((getAvailableMoves initialState.board).length : ℚ)⌋ = 4 := by
    rw [hlen]
    norm_num
  have h1 : bestAIMove initialState.board 0 = some 0 := by
    rw [hr]
    simp only [getRandomMove]
    rw [hf0]
    decide
  have h2 : bestAIMove initialState.board (1/2) = some 4 := by
    rw [hr]
    simp only [getRandomMove]
    rw [hf2]
    decide
  rw [h1, h2]
  simp

end TicTacToe
